import Mathlib

/-!
Verification of the article content engine of the portfolio repository
(`ArticlesService`, sources referenced by lines of `src/unnamed/part_001`).

Modelling conventions for the shallow embedding:

* JS strings are lists of characters (`Str`).  `toLowerCase` maps
  `Char.toLower` over the list, `includes` is substring containment, and
  `lastIndexOf` is `lastIdxOf` below.
* Publication dates are stored as the integer returned by
  `new Date(d).getTime()`; the service only ever compares dates through
  that value (line 47 and line 206 of the source).
* `Array.prototype.sort` is stable (guaranteed by the ECMAScript
  standard); a stable sort with respect to a total preorder is unique,
  so it is embedded as `List.insertionSort` with the preorder
  "comparator result is non-positive".
* Failed fetches and frontmatter parse errors are modelled by `none`
  entries in the document list handed to `loadArticles` (lines 40-42 and
  68-108 catch per-document errors and skip the document).
* `Math.ceil(n / 10)` on natural `n` is `(n + 9) / 10` (exact for every
  count below 2^53, far above any realistic article count).
-/

namespace Portfolio

/-- JS strings, modelled as lists of characters. -/
abbrev Str := List Char

/-- The embedding of `s.toLowerCase()`, applied per character. -/
def strLower (s : Str) : Str := s.map Char.toLower

/-- The backtick character (code point 96), used by the markdown stripper. -/
def btick : Char := Char.ofNat 96

/-- The embedding of `s.lastIndexOf(c)` as an optional index (`none`
models the JS result `-1`). -/
def lastIdxOf (c : Char) : Str → Option Nat
  | [] => none
  | x :: r =>
    match lastIdxOf c r with
    | some k => some (k + 1)
    | none => if x = c then some 0 else none

/-! ### The markdown stripping pipeline of `extractExcerpt` (lines 121-130)

Each `String.replace(/re/g, repl)` call scans the input left to right,
replacing successive non-overlapping matches; replacement text is not
rescanned.  `scanReplace` is that loop, and one `tryX` function below is
the hand-compiled matcher of each of the source's regexes, applied at
the current position (returning the number of consumed characters and
the replacement text). -/

/-- One global-replace pass: at each position try the pattern; on a match
emit the replacement and continue after the match, otherwise emit the
character.  All patterns below consume at least one character, so `fuel`
(instantiated with the input length by `runPass`) never runs out. -/
def scanReplace (tryMatch : Str → Option (Nat × Str)) : Nat → Str → Str
  | _, [] => []
  | 0, s => s
  | fuel + 1, c :: rest =>
    match tryMatch (c :: rest) with
    | some (n, repl) => repl ++ scanReplace tryMatch fuel (List.drop (n - 1) rest)
    | none => c :: scanReplace tryMatch fuel rest

/-- Run one replacement pass over the whole string. -/
def runPass (tryMatch : Str → Option (Nat × Str)) (s : Str) : Str :=
  scanReplace tryMatch s.length s

/-- Non-greedy bridge of `(.*?)` up to a closing delimiter: succeeds on the
shortest prefix of admissible characters followed by `close`, returning
the captured text and the number of consumed characters. -/
def matchInner (ok : Char → Bool) (close : Str) : Str → Option (Str × Nat)
  | [] => if close = [] then some ([], 0) else none
  | c :: r =>
    if close.isPrefixOf (c :: r) then some ([], close.length)
    else if ok c then (matchInner ok close r).map (fun p => (c :: p.1, p.2 + 1))
    else none

/-- The dot of a JS regex: any character except a line terminator. -/
def notNl (c : Char) : Bool := ¬ (c = '\n' ∨ c = '\r')

/-- Matcher of `/#{1,6}\s+/g → ''` (line 122).  A run of more than six hashes fails to
match at its head, which the scan loop then re-tries one position later,
exactly as the backtracking regex behaves. -/
def tryHeader (s : Str) : Option (Nat × Str) :=
  let k := (s.takeWhile (fun c => c = '#')).length
  if 1 ≤ k ∧ k ≤ 6 then
    let w := ((s.drop k).takeWhile Char.isWhitespace).length
    if 1 ≤ w then some (k + w, []) else none
  else none

/-- Matcher of `/\*\*(.*?)\*\*/g → '$1'` (line 123). -/
def tryBold : Str → Option (Nat × Str)
  | '*' :: '*' :: r =>
    match matchInner notNl ['*', '*'] r with
    | some (inn, n) => some (2 + n, inn)
    | none => none
  | _ => none

/-- Matcher of `/\*(.*?)\*/g → '$1'` (line 124). -/
def tryItalic : Str → Option (Nat × Str)
  | '*' :: r =>
    match matchInner notNl ['*'] r with
    | some (inn, n) => some (1 + n, inn)
    | none => none
  | _ => none

/-- Matcher of the inline-code regex `` /`(.*?)`/g → '$1' `` (line 125). -/
def tryCode (s : Str) : Option (Nat × Str) :=
  match s with
  | c :: r =>
    if c = btick then
      match matchInner notNl [btick] r with
      | some (inn, n) => some (1 + n, inn)
      | none => none
    else none
  | _ => none

/-- Matcher of the fenced-code regex (three backticks, non-greedy any,
three backticks, removed; line 126). -/
def tryFence (s : Str) : Option (Nat × Str) :=
  match s with
  | c1 :: c2 :: c3 :: r =>
    if c1 = btick ∧ c2 = btick ∧ c3 = btick then
      match matchInner (fun _ => true) [btick, btick, btick] r with
      | some (_, n) => some (3 + n, [])
      | none => none
    else none
  | _ => none

/-- Matcher of `/\[([^\]]+)\]\([^)]+\)/g → '$1'` (line 127). -/
def tryLink : Str → Option (Nat × Str)
  | '[' :: r =>
    let inner := r.takeWhile (fun c => c ≠ ']')
    if inner.length = 0 then none
    else
      match r.drop inner.length with
      | ']' :: '(' :: r2 =>
        let url := r2.takeWhile (fun c => c ≠ ')')
        if url.length = 0 then none
        else
          match r2.drop url.length with
          | ')' :: _ => some (1 + inner.length + 2 + url.length + 1, inner)
          | _ => none
      | _ => none
  | _ => none

/-- Matcher of `/\n\s*\n/g → ' '` (line 128).  The greedy `\s*` backtracks to the last
newline inside the whitespace run following the opening newline. -/
def tryBlankLine : Str → Option (Nat × Str)
  | '\n' :: r =>
    let run := r.takeWhile Char.isWhitespace
    match lastIdxOf '\n' run with
    | some j => some (1 + j + 1, [' '])
    | none => none
  | _ => none

/-- Matcher of `/\s+/g → ' '` (line 129). -/
def tryWsRun : Str → Option (Nat × Str)
  | c :: r =>
    if c.isWhitespace then some ((r.takeWhile Char.isWhitespace).length + 1, [' '])
    else none
  | _ => none

/-- The embedding of `s.trim()`. -/
def trimStr (s : Str) : Str :=
  ((s.dropWhile Char.isWhitespace).reverse.dropWhile Char.isWhitespace).reverse

/-- Lines 121-130: the full stripping pipeline producing plain text. -/
def plainTextOf (content : Str) : Str :=
  trimStr (runPass tryWsRun (runPass tryBlankLine (runPass tryLink (runPass tryFence
    (runPass tryCode (runPass tryItalic (runPass tryBold (runPass tryHeader content))))))))

/-- The ellipsis marker appended by `extractExcerpt` (lines 141 and 144). -/
def ellipsis : Str := ['.', '.', '.']

/-- The embedding of `extractExcerpt(content, length)` (lines 119-145).  The comparison
`lastSpaceIndex > length * 0.8` is embedded in exact arithmetic as
`4 * length < 5 * lastSpaceIndex`; IEEE double evaluation of
`length * 0.8` agrees with the rational value on this comparison for
every length below 2^49, so no behaviour is lost. -/
def extractExcerpt (content : Str) (maxLen : Nat) : Str :=
  let plainText := plainTextOf content
  if plainText.length ≤ maxLen then plainText
  else
    let truncated := plainText.take maxLen
    let lastSpaceIndex : Int :=
      match lastIdxOf ' ' truncated with
      | some k => (k : Int)
      | none => -1
    if 4 * (maxLen : Int) < 5 * lastSpaceIndex then
      truncated.take lastSpaceIndex.toNat ++ ellipsis
    else
      truncated ++ ellipsis

/-- Number of maximal non-whitespace runs; `inRun` records whether the
previous character belonged to a run. -/
def countRunsAux : Str → Bool → Nat
  | [], _ => 0
  | c :: r, inRun =>
    if c.isWhitespace then countRunsAux r false
    else (if inRun then 0 else 1) + countRunsAux r true

/-- The embedding of `content.trim().split(/\s+/).length` (line 149): splitting the empty
string yields the one-element array `[""]`. -/
def countWordsSplit (s : Str) : Nat :=
  let t := trimStr s
  match t with
  | [] => 1
  | _ => countRunsAux t false

/-- The embedding of `calculateReadingTime` (lines 147-151):
`Math.ceil(words / 200)`. -/
def calculateReadingTime (content : Str) : Nat :=
  (countWordsSplit content + 199) / 200

/-- Collapse whitespace runs to single hyphens (helper of `generateSlug`). -/
def tryWsToHyphen : Str → Option (Nat × Str)
  | c :: r =>
    if c.isWhitespace then some ((r.takeWhile Char.isWhitespace).length + 1, ['-'])
    else none
  | _ => none

/-- Modelled from the spec: `generateSlug` (lines 111-117) delegates to the
external `slugify` package, which is not part of this repository; per the
spec it "lowercases, transliterates/strips punctuation not safe for a URL
path segment, collapses whitespace to single hyphens" and is
deterministic. -/
def generateSlug (title : Str) : Str :=
  let kept := (trimStr (strLower title)).filter
    (fun c => c.isAlphanum ∨ c.isWhitespace ∨ c = '-')
  runPass tryWsToHyphen kept

/-! ### Data model (`src/src/app/types/Article.ts`) -/

/-- The metadata record: `date` holds the `new Date(metadata.date).getTime()`
value, the only way the service ever inspects a date. -/
structure ArticleMetadata where
  title : Str
  date : Int
  tags : List Str
  summary : Str
  author : Str
  slug : Str
deriving DecidableEq

structure Article where
  metadata : ArticleMetadata
  content : Str
  excerpt : Str
  readingTime : Nat
  filename : Str
  path : Str
deriving DecidableEq

structure ArticleListItem where
  metadata : ArticleMetadata
  excerpt : Str
  readingTime : Nat
  filename : Str
  path : Str
deriving DecidableEq

structure BlogConfig where
  articlesPerPage : Nat
  excerptLength : Nat
  dateFormat : Str
deriving DecidableEq

/-- The service's `config` field (lines 18-22), never mutated. -/
def defaultConfig : BlogConfig :=
  { articlesPerPage := 10, excerptLength := 200, dateFormat := "MMMM dd, yyyy".toList }

inductive SortBy | date | title
deriving DecidableEq

inductive SortOrder | asc | desc
deriving DecidableEq

/-- Search parameters; every field is optional in the interface. -/
structure ArticleSearchParams where
  query : Option Str := none
  tag : Option Str := none
  page : Option Nat := none
  sortBy : Option SortBy := none
  sortOrder : Option SortOrder := none
deriving DecidableEq

structure ArticleSearchResult where
  articles : List ArticleListItem
  totalCount : Nat
  currentPage : Nat
  totalPages : Nat
  hasNextPage : Bool
  hasPreviousPage : Bool
deriving DecidableEq

structure TagCount where
  tag : Str
  count : Nat
deriving DecidableEq

/-! ### Content loader (lines 28-109) -/

/-- The loosely-typed frontmatter of one fetched document, after
`matter(fileContent)` succeeded.  `none` fields model absent keys; an
empty string is modelled as `some []` (both are falsy in the JS checks
below).  `date` is `none` when the raw date value is absent or empty
(the falsy cases of `!data.date`), otherwise the time value. -/
structure RawDoc where
  filename : Str := []
  title : Option Str := none
  date : Option Int := none
  tags : Option (List Str) := none
  summary : Option Str := none
  author : Option Str := none
  slug : Option Str := none
  content : Str := []
deriving DecidableEq

/-- The embedding of `loadSingleArticle` after a successful fetch and
parse (lines 78-103):
validate `{title, date, author}` (line 79, JS falsy check, so empty
strings are rejected too), apply the defaults of lines 84-91, derive
excerpt and reading time, and build the `Article`. -/
def loadSingleArticle (doc : RawDoc) : Option Article :=
  match doc.title, doc.date, doc.author with
  | some title, some date, some author =>
    if title = [] ∨ author = [] then none
    else
      let slug :=
        match doc.slug with
        | some s => if s = [] then generateSlug title else s
        | none => generateSlug title
      let metadata : ArticleMetadata :=
        { title := title
          date := date
          tags := doc.tags.getD []
          summary := doc.summary.getD []
          author := author
          slug := slug }
      some
        { metadata := metadata
          content := doc.content
          excerpt := extractExcerpt doc.content defaultConfig.excerptLength
          readingTime := calculateReadingTime doc.content
          filename := doc.filename
          path := "/article/".toList ++ slug }
  | _, _, _ => none

/-- The accumulated `loadedArticles` list in document-set order
(lines 32-43): a `none` entry is a document whose fetch or frontmatter
parse failed (caught and skipped), a `some doc` entry is handed to
`loadSingleArticle`, whose `null` results are also skipped. -/
def parsedArticles (docs : List (Option RawDoc)) : List Article :=
  docs.filterMap (fun od => od.bind loadSingleArticle)

/-- The sort relation of line 46: comparator
`(a, b) => dateOf b - dateOf a` is non-positive iff `b`'s date is at most
`a`'s. -/
def dateDescR (a b : Article) : Prop := b.metadata.date ≤ a.metadata.date

instance : DecidableRel dateDescR := fun _ _ => Int.decLe _ _

instance : IsTotal Article dateDescR :=
  ⟨fun a b => (le_total b.metadata.date a.metadata.date).imp id id⟩

instance : IsTrans Article dateDescR :=
  ⟨fun _ _ _ h1 h2 => le_trans h2 h1⟩

/-- The embedding of `loadArticles` (lines 28-54): collect the per-document results, then
sort by date descending (line 46).  `Array.prototype.sort` is stable, and
a stable sort by a total preorder is unique, so `List.insertionSort` with
`dateDescR` is exactly it. -/
def loadArticles (docs : List (Option RawDoc)) : List Article :=
  List.insertionSort dateDescR (parsedArticles docs)

/-! ### Read operations (lines 153-247) -/

/-- The embedding of `getArticleBySlug` (lines 162-165) over an index snapshot:
`articles.find(...) || null`. -/
def getArticleBySlug (articles : List Article) (slug : Str) : Option Article :=
  articles.find? (fun a => decide (a.metadata.slug = slug))

/-- The embedding of `getArticlesList` (lines 167-176): drop the raw
content body. -/
def getArticlesList (articles : List Article) : List ArticleListItem :=
  articles.map (fun a =>
    { metadata := a.metadata
      excerpt := a.excerpt
      readingTime := a.readingTime
      filename := a.filename
      path := a.path })

/-- Lines 182-190: the free-text filter.  `if (params.query)` runs the
filter for every non-empty query string (an empty string is falsy); the
query and each field are lowercased and matched by `includes`. -/
def applyQueryFilter (params : ArticleSearchParams) (articles : List ArticleListItem) :
    List ArticleListItem :=
  match params.query with
  | none => articles
  | some q =>
    if q = [] then articles
    else
      let query := strLower q
      articles.filter (fun a =>
        decide (query <:+: strLower a.metadata.title) ||
        decide (query <:+: strLower a.metadata.summary) ||
        a.metadata.tags.any (fun t => decide (query <:+: strLower t)) ||
        decide (query <:+: strLower a.excerpt))

/-- Lines 192-196: the tag filter, exact membership of the tag sequence
(again guarded by JS truthiness of `params.tag`). -/
def applyTagFilter (params : ArticleSearchParams) (articles : List ArticleListItem) :
    List ArticleListItem :=
  match params.tag with
  | none => articles
  | some t =>
    if t = [] then articles
    else articles.filter (fun a => decide (t ∈ a.metadata.tags))

/-- Code-point lexicographic string comparison, the embedding of
`a.localeCompare(b)` (line 208); the locale-sensitive collation of a real
browser may order exotic titles differently, which no claim depends on. -/
def strCompare : Str → Str → Int
  | [], [] => 0
  | [], _ :: _ => -1
  | _ :: _, [] => 1
  | c :: s, d :: t =>
    if c.toNat < d.toNat then -1
    else if d.toNat < c.toNat then 1
    else strCompare s t

/-- Lines 202-212: the comparator body. -/
def articleComparison (sb : SortBy) (a b : ArticleListItem) : Int :=
  match sb with
  | .date => a.metadata.date - b.metadata.date
  | .title => strCompare a.metadata.title b.metadata.title

/-- Line 211: descending order negates the comparison. -/
def sortComparator (sb : SortBy) (so : SortOrder) (a b : ArticleListItem) : Int :=
  match so with
  | .desc => -(articleComparison sb a b)
  | .asc => articleComparison sb a b

/-- The relation `a` sorts at or before `b` for the stable sort of line 202. -/
def searchLe (sb : SortBy) (so : SortOrder) (a b : ArticleListItem) : Prop :=
  sortComparator sb so a b ≤ 0

instance (sb : SortBy) (so : SortOrder) : DecidableRel (searchLe sb so) :=
  fun _ _ => Int.decLe _ _

/-- The stable sort of lines 202-212. -/
def sortArticles (sb : SortBy) (so : SortOrder) (articles : List ArticleListItem) :
    List ArticleListItem :=
  List.insertionSort (searchLe sb so) articles

/-- Lines 179-212 of `searchArticles`: everything before pagination
(filters, then sort with the defaults `sortBy='date'`, `sortOrder='desc'`
of lines 199-200).  Independent of `params.page`. -/
def filteredSorted (articles : List Article) (params : ArticleSearchParams) :
    List ArticleListItem :=
  sortArticles (params.sortBy.getD .date) (params.sortOrder.getD .desc)
    (applyTagFilter params (applyQueryFilter params (getArticlesList articles)))

/-- The embedding of `params.page || 1` (line 215): absent and `0` are falsy. -/
def pageOf : Option Nat → Nat
  | none => 1
  | some 0 => 1
  | some n => n

/-- The embedding of `searchArticles` (lines 178-232) over an index snapshot.  Lines
214-231 inlined: `totalCount` is the filtered length before pagination,
`totalPages = Math.ceil(totalCount / articlesPerPage)`, the page is the
slice `[(page-1)*perPage, page*perPage)`, and the flags compare the
requested page against `totalPages` and `1`. -/
def searchArticles (articles0 : List Article) (params : ArticleSearchParams) :
    ArticleSearchResult :=
  { articles :=
      ((filteredSorted articles0 params).drop
        ((pageOf params.page - 1) * defaultConfig.articlesPerPage)).take
        defaultConfig.articlesPerPage
    totalCount := (filteredSorted articles0 params).length
    currentPage := pageOf params.page
    totalPages :=
      ((filteredSorted articles0 params).length + defaultConfig.articlesPerPage - 1) /
        defaultConfig.articlesPerPage
    hasNextPage :=
      decide (pageOf params.page <
        ((filteredSorted articles0 params).length + defaultConfig.articlesPerPage - 1) /
          defaultConfig.articlesPerPage)
    hasPreviousPage := decide (1 < pageOf params.page) }

/-! ### Tag aggregation (lines 234-247) -/

/-- The embedding of `tagCounts.set(tag, (tagCounts.get(tag) || 0) + 1)` on a JS `Map`,
which preserves the insertion position of an existing key and appends a
new key at the end. -/
def bumpTag : List (Str × Nat) → Str → List (Str × Nat)
  | [], t => [(t, 1)]
  | (t', c) :: rest, t =>
    if t' = t then (t', c + 1) :: rest else (t', c) :: bumpTag rest t

/-- The populated `tagCounts` map (lines 236-242), entries in insertion
order. -/
def tagCountsMap (articles : List Article) : List (Str × Nat) :=
  articles.foldl (fun m a => a.metadata.tags.foldl bumpTag m) []

/-- The sort relation of line 246 (`(a, b) => b.count - a.count`). -/
def countDescR (a b : TagCount) : Prop := b.count ≤ a.count

instance : DecidableRel countDescR := fun _ _ => Nat.decLe _ _

instance : IsTotal TagCount countDescR :=
  ⟨fun a b => (Nat.le_total b.count a.count).imp id id⟩

instance : IsTrans TagCount countDescR :=
  ⟨fun _ _ _ h1 h2 => Nat.le_trans h2 h1⟩

/-- The embedding of `getAllTags` (lines 234-247): map entries in insertion order, stably
sorted by count descending. -/
def getAllTags (articles : List Article) : List TagCount :=
  List.insertionSort countDescR
    ((tagCountsMap articles).map (fun p => { tag := p.1, count := p.2 }))

/-- All tag occurrences of the index, in index order (the iteration order
of the nested `forEach` of lines 238-242). -/
def flatTags (articles : List Article) : List Str :=
  (articles.map (fun a => a.metadata.tags)).flatten

/-! ### Cooperative-scheduling model of concurrent `getArticles()` calls

The service runs in a single-threaded event loop: control can change
hands only at an `await`.  `getArticles` (lines 155-160) synchronously
checks `this.articles.length === 0` and, if empty, runs `loadArticles`,
which suspends at the `await` of every document fetch and assigns
`this.articles` after the loop.  A caller is therefore a sequence of
atomic steps: the emptiness check, one step per document fetch, and the
final index installation.  `fetchCount` counts every document retrieval
performed by any caller.  The constructor's fire-and-forget load
(line 25) is not modelled: the claim quantifies over callers of the
first-ever `getArticles()` on an unloaded index. -/

structure LoadSysState where
  articles : List Article
  fetchCount : Nat
deriving DecidableEq

/-- Program counter of one `getArticles()` caller. -/
inductive CallerPC
  /-- about to evaluate `this.articles.length === 0` (line 156) -/
  | start
  /-- inside `loadArticles` with `n` document fetches still to perform -/
  | fetching (n : Nat)
  /-- every fetch done, about to assign `this.articles` (line 46) -/
  | installing
  /-- returned -/
  | done
deriving DecidableEq

/-- One atomic step of a caller against the shared service state. -/
def callerStep (docs : List (Option RawDoc)) (s : LoadSysState) :
    CallerPC → LoadSysState × CallerPC
  | .start =>
    if s.articles.length = 0 then (s, .fetching docs.length) else (s, .done)
  | .fetching (n + 1) => ({ s with fetchCount := s.fetchCount + 1 }, .fetching n)
  | .fetching 0 => (s, .installing)
  | .installing => ({ s with articles := loadArticles docs }, .done)
  | .done => (s, .done)

/-- Run a schedule over two callers; `false` steps caller one, `true`
steps caller two. -/
def runSchedule (docs : List (Option RawDoc)) :
    List Bool → LoadSysState × CallerPC × CallerPC → LoadSysState × CallerPC × CallerPC
  | [], st => st
  | b :: rest, (s, pc1, pc2) =>
    if b then
      let r := callerStep docs s pc2
      runSchedule docs rest (r.1, pc1, r.2)
    else
      let r := callerStep docs s pc1
      runSchedule docs rest (r.1, r.2, pc2)

/-- The unloaded initial state both callers observe. -/
def initLoadState : LoadSysState := { articles := [], fetchCount := 0 }

/-- The fully interleaved schedule: both callers pass the emptiness check
before either load completes (realizable, since `loadArticles` suspends
at its first `await` before any index is installed), then each runs its
own load to completion over `d` documents. -/
def concSched (d : Nat) : List Bool :=
  false :: true :: (List.replicate (d + 2) false ++ List.replicate (d + 2) true)

/-- The serialized schedule: caller two checks only after caller one's
load has completed and installed the index. -/
def seqSched (d : Nat) : List Bool :=
  false :: (List.replicate (d + 2) false ++ [true])

/-! ### Concrete fixtures used by witnesses and counterexamples -/

/-- A valid document declaring slug `"s"`, dated 1. -/
def docS1 : RawDoc :=
  { filename := ['f'], title := some ['t'], date := some 1,
    author := some ['u'], slug := some ['s'] }

/-- A valid document also declaring slug `"s"`, dated 0. -/
def docS2 : RawDoc :=
  { filename := ['g'], title := some ['t'], date := some 0,
    author := some ['u'], slug := some ['s'] }

/-- A valid document declaring the distinct slug `"u"`, dated 0. -/
def docS3 : RawDoc :=
  { filename := ['h'], title := some ['t'], date := some 0,
    author := some ['u'], slug := some ['u'] }

/-- The article `loadSingleArticle docS1` produces. -/
def artS1 : Article :=
  { metadata :=
      { title := ['t'], date := 1, tags := [], summary := [],
        author := ['u'], slug := ['s'] }
    content := []
    excerpt := []
    readingTime := 1
    filename := ['f']
    path := "/article/s".toList }

/-- An article none of whose searchable fields contains a space. -/
def artNoSp : Article :=
  { metadata :=
      { title := ['t'], date := 0, tags := [['x']], summary := ['m'],
        author := ['u'], slug := ['t'] }
    content := ['c']
    excerpt := ['e']
    readingTime := 1
    filename := ['f']
    path := [] }

/-- An article carrying the same tag twice. -/
def artDup : Article :=
  { metadata :=
      { title := ['t'], date := 0, tags := [['a'], ['a']], summary := [],
        author := ['u'], slug := ['t'] }
    content := []
    excerpt := []
    readingTime := 1
    filename := ['f']
    path := [] }

/-- A body whose plain text is 14 characters with its last space at
index 8, exactly 80% of the excerpt limit 10. -/
def body7 : Str := "aaaaaaaa bcdef".toList

/-- Count lookup in the association-list model of the JS `Map`
(`tagCounts.get(tag) || 0`). -/
def lookupC : List (Str × Nat) → Str → Nat
  | [], _ => 0
  | (t', c) :: r, t => if t' = t then c else lookupC r t

/-- The first occurrences of a list's elements in order, skipping any
already in `seen`: the key insertion order of a JS `Map` populated by
successive `set` calls. -/
def firstOccs (seen : List Str) : List Str → List Str
  | [] => []
  | t :: ts => if t ∈ seen then firstOccs seen ts else t :: firstOccs (t :: seen) ts

/-! ### Helper lemmas -/

/-- One `orderedInsert` step preserves the filter by any key value, for a
sort relation that is "descending by key": skipped elements have strictly
larger keys, so the inserted element lands in front of every key-tie. -/
theorem orderedInsert_filter_key {α β : Type} [LinearOrder β] (k : α → β)
    (r : α → α → Prop) [DecidableRel r] (hr : ∀ a b, r a b ↔ k b ≤ k a) (d : β) (x : α) :
    ∀ l : List α, (List.orderedInsert r x l).filter (fun a => decide (k a = d)) =
      if k x = d then x :: l.filter (fun a => decide (k a = d))
      else l.filter (fun a => decide (k a = d)) := by
  intro l
  induction l with
  | nil =>
    by_cases hx : k x = d <;> simp [List.orderedInsert, List.filter, hx]
  | cons b t ih =>
    by_cases hrb : r x b
    · by_cases hx : k x = d <;>
        simp [List.orderedInsert, hrb, List.filter_cons, hx]
    · have hlt : k x < k b := not_le.mp (fun h => hrb ((hr x b).mpr h))
      by_cases hx : k x = d
      · have hb : ¬ (k b = d) := by
          intro h
          exact absurd (hx ▸ h ▸ hlt) (lt_irrefl _)
        simp [List.orderedInsert, hrb, List.filter_cons, hb, ih, hx]
      · by_cases hb : k b = d <;>
          simp [List.orderedInsert, hrb, List.filter_cons, hb, ih, hx]

/-- Stability of the stable sort, phrased through filters: for every key
value, the sorted list restricts to exactly the input's sublist of that
key, in input order. -/
theorem insertionSort_filter_key {α β : Type} [LinearOrder β] (k : α → β)
    (r : α → α → Prop) [DecidableRel r] (hr : ∀ a b, r a b ↔ k b ≤ k a) (d : β) :
    ∀ l : List α, (List.insertionSort r l).filter (fun a => decide (k a = d)) =
      l.filter (fun a => decide (k a = d)) := by
  intro l
  induction l with
  | nil => rfl
  | cons x t ih =>
    have h := orderedInsert_filter_key k r hr d x (List.insertionSort r t)
    by_cases hx : k x = d <;>
      simp [List.insertionSort, h, hx, ih, List.filter_cons]

/-- The loaded index is pairwise sorted by date descending. -/
theorem loadArticles_sorted (docs : List (Option RawDoc)) :
    (loadArticles docs).Pairwise dateDescR :=
  List.sorted_insertionSort dateDescR (parsedArticles docs)

/-- The loaded index is a permutation of the accumulated per-document
results: sorting drops and duplicates nothing. -/
theorem loadArticles_perm (docs : List (Option RawDoc)) :
    List.Perm (loadArticles docs) (parsedArticles docs) :=
  List.perm_insertionSort dateDescR (parsedArticles docs)

/-- Claim C1: after every successful load the index is sorted by date
descending — every pair of articles in index order, in particular every
adjacent pair `(a, b)`, satisfies `a.date >= b.date` — and articles with
equal dates appear in the order their documents were processed: for
every date, the index's articles of that date are exactly the
document-order (`parsedArticles`) ones, in the same order. -/
theorem c1_index_sorted_date_desc (docs : List (Option RawDoc)) :
    (loadArticles docs).Pairwise
      (fun a b => b.metadata.date ≤ a.metadata.date) ∧
    ∀ d : Int,
      (loadArticles docs).filter (fun a => decide (a.metadata.date = d)) =
        (parsedArticles docs).filter (fun a => decide (a.metadata.date = d)) :=
  ⟨loadArticles_sorted docs, fun d => by
    exact insertionSort_filter_key (fun a : Article => a.metadata.date) dateDescR
      (fun _ _ => Iff.rfl) d (parsedArticles docs)⟩

/-- Concatenating the ceil(len/10) successive 10-chunks of a list
reassembles the list. -/
theorem flatten_chunks10 {α : Type} :
    ∀ (n : Nat) (l : List α), n = (l.length + 9) / 10 →
      ((List.range n).map (fun i => (l.drop (i * 10)).take 10)).flatten = l := by
  intro n
  induction n with
  | zero =>
    intro l h
    have hlen : l.length = 0 := by omega
    rw [List.eq_nil_of_length_eq_zero hlen]
    rfl
  | succ n ih =>
    intro l h
    have htail : n = ((l.drop 10).length + 9) / 10 := by
      rw [List.length_drop]
      omega
    calc ((List.range (n + 1)).map (fun i => (l.drop (i * 10)).take 10)).flatten
        = ((0 :: (List.range n).map Nat.succ).map
            (fun i => (l.drop (i * 10)).take 10)).flatten := by
          rw [List.range_succ_eq_map]
      _ = l.take 10 ++
            ((List.range n).map (fun i => ((l.drop 10).drop (i * 10)).take 10)).flatten := by
          simp only [List.map_cons, List.map_map, List.flatten_cons, Nat.zero_mul,
            List.drop_zero]
          congr 1
          apply congrArg
          apply List.map_congr_left
          intro i _
          simp only [Function.comp_apply]
          rw [List.drop_drop]
          congr 2
          omega
      _ = l.take 10 ++ l.drop 10 := by rw [ih (l.drop 10) htail]
      _ = l := List.take_append_drop 10 l

/-- Claim C2: for a fixed index snapshot and filter/sort setting, the
concatenation of the article pages 1 through `totalPages` is exactly the
full filtered and sorted set — no duplicates, no omissions. -/
theorem c2_pagination_partition (idx : List Article) (params : ArticleSearchParams) :
    ((List.range (searchArticles idx params).totalPages).map (fun i =>
        (searchArticles idx { params with page := some (i + 1) }).articles)).flatten
      = filteredSorted idx params := by
  have e2 : ∀ i : Nat,
      (searchArticles idx { params with page := some (i + 1) }).articles
        = ((filteredSorted idx params).drop (i * 10)).take 10 := by
    intro i
    show ((filteredSorted idx { params with page := some (i + 1) }).drop
        ((pageOf (some (i + 1)) - 1) * 10)).take 10
      = ((filteredSorted idx params).drop (i * 10)).take 10
    have hfs : filteredSorted idx { params with page := some (i + 1) }
        = filteredSorted idx params := rfl
    rw [hfs]
    have hp : pageOf (some (i + 1)) = i + 1 := rfl
    have harith : (i + 1 - 1) * 10 = i * 10 := by omega
    rw [hp, harith]
  have e1 : (searchArticles idx params).totalPages
      = ((filteredSorted idx params).length + 9) / 10 := rfl
  rw [e1]
  rw [List.map_congr_left (fun i _ => e2 i)]
  exact flatten_chunks10 _ _ rfl

/-- Claim C3: for every requested page `p ≥ 1`, `totalCount` is the
filtered-set size before pagination; `totalPages` is `⌈totalCount/10⌉`
(characterized as the least bound: `totalCount ≤ 10·totalPages`, and
`10·(totalPages-1) < totalCount` when the count is positive, with
`totalPages = 0` exactly at count 0); `hasNextPage` iff `p < totalPages`;
`hasPreviousPage` iff `p > 1`; and a page beyond `totalPages` yields an
empty article page rather than an error. -/
theorem c3_search_result_fields (idx : List Article) (params : ArticleSearchParams)
    (p : Nat) (hp : 1 ≤ p) (hpage : params.page = some p) :
    (searchArticles idx params).totalCount = (filteredSorted idx params).length ∧
    (searchArticles idx params).totalCount ≤ 10 * (searchArticles idx params).totalPages ∧
    (0 < (searchArticles idx params).totalCount →
      10 * ((searchArticles idx params).totalPages - 1) <
        (searchArticles idx params).totalCount) ∧
    ((searchArticles idx params).totalCount = 0 →
      (searchArticles idx params).totalPages = 0) ∧
    ((searchArticles idx params).hasNextPage = true ↔
      p < (searchArticles idx params).totalPages) ∧
    ((searchArticles idx params).hasPreviousPage = true ↔ 1 < p) ∧
    ((searchArticles idx params).totalPages < p →
      (searchArticles idx params).articles = []) := by
  have hpageOf : pageOf params.page = p := by
    rw [hpage]
    cases p with
    | zero => omega
    | succ n => rfl
  refine ⟨rfl, ?_, ?_, ?_, ?_, ?_, ?_⟩
  · show (filteredSorted idx params).length ≤
      10 * (((filteredSorted idx params).length + 10 - 1) / 10)
    omega
  · intro h
    have h' : 0 < (filteredSorted idx params).length := h
    show 10 * ((((filteredSorted idx params).length + 10 - 1) / 10) - 1) <
      (filteredSorted idx params).length
    omega
  · intro h
    have h' : (filteredSorted idx params).length = 0 := h
    show (((filteredSorted idx params).length + 10 - 1) / 10) = 0
    omega
  · have e : (searchArticles idx params).hasNextPage
        = decide (p < (searchArticles idx params).totalPages) := by
      show decide (pageOf params.page <
          ((filteredSorted idx params).length + 10 - 1) / 10) = _
      rw [hpageOf]
      rfl
    rw [e, decide_eq_true_eq]
  · have e : (searchArticles idx params).hasPreviousPage = decide (1 < p) := by
      show decide (1 < pageOf params.page) = _
      rw [hpageOf]
    rw [e, decide_eq_true_eq]
  · intro h
    have h' : (((filteredSorted idx params).length + 10 - 1) / 10) < p := h
    show ((filteredSorted idx params).drop ((pageOf params.page - 1) * 10)).take 10 = []
    rw [hpageOf]
    have hlen : (filteredSorted idx params).length ≤ (p - 1) * 10 := by
      rcases Nat.exists_eq_add_of_le hp with ⟨q, hq⟩
      subst hq
      omega
    rw [List.drop_eq_nil_of_le hlen]
    rfl

/-- Witness for C3 at a one-article snapshot and requested page 2 (which
is beyond `totalPages = 1`). -/
theorem c3_search_result_fields_witness :
    1 ≤ 2 ∧
    (searchArticles [artS1] { page := some 2 }).hasPreviousPage = true ∧
    (searchArticles [artS1] { page := some 2 }).articles = [] := by
  have h := c3_search_result_fields [artS1] { page := some 2 } 2 (by decide) rfl
  exact ⟨by decide, h.2.2.2.2.2.1.mpr (by decide), h.2.2.2.2.2.2 (by decide)⟩

/-- The list item of `artNoSp`. -/
def itemNoSp : ArticleListItem :=
  { metadata := artNoSp.metadata
    excerpt := artNoSp.excerpt
    readingTime := artNoSp.readingTime
    filename := artNoSp.filename
    path := artNoSp.path }

/-- Counterexample to claim C4 as stated: the whitespace-only query
`" "` is truthy in `if (params.query)` (line 182), so it is applied as a
literal substring filter instead of "no filter": on a snapshot whose
article contains no space in any searched field it removes everything,
while the absent query keeps the article. -/
theorem c4_counterexample :
    searchArticles [artNoSp] { query := some [' '] } ≠
      searchArticles [artNoSp] { query := none } := by
  decide

/-- Claim C4 as amended: only an absent or empty query applies no filter;
every non-empty query — including a whitespace-only one — is applied as
a case-insensitive substring filter, and an article passes iff the
lowercased query occurs in its lowercased title, summary, one of its
tags, or excerpt. -/
theorem c4_amended_query_semantics (idx : List Article) (params : ArticleSearchParams) :
    ((params.query = none ∨ params.query = some []) →
      searchArticles idx params = searchArticles idx { params with query := none }) ∧
    (∀ q, params.query = some q → q ≠ [] →
      ∀ a, a ∈ applyQueryFilter params (getArticlesList idx) ↔
        (a ∈ getArticlesList idx ∧
          (strLower q <:+: strLower a.metadata.title ∨
           strLower q <:+: strLower a.metadata.summary ∨
           (∃ t ∈ a.metadata.tags, strLower q <:+: strLower t) ∨
           strLower q <:+: strLower a.excerpt))) := by
  constructor
  · intro h
    rcases h with h | h <;>
      simp [searchArticles, filteredSorted, applyQueryFilter, applyTagFilter, h]
  · intro q hq hqne a
    simp only [applyQueryFilter, hq, if_neg hqne]
    rw [List.mem_filter]
    simp [List.any_eq_true, decide_eq_true_eq, Bool.or_eq_true]
    intro _
    rw [or_assoc, or_assoc]

/-- Witness for the amended C4: the empty query behaves as no query, and
a one-character query admits `artNoSp` through its tag match. -/
theorem c4_amended_query_semantics_witness :
    ((some ([] : Str) = none ∨ some ([] : Str) = some []) ∧
      searchArticles [artNoSp] { query := some [] } =
        searchArticles [artNoSp] { query := none }) ∧
    itemNoSp ∈ applyQueryFilter { query := some ['x'] } (getArticlesList [artNoSp]) := by
  refine ⟨⟨Or.inr rfl, ?_⟩, ?_⟩
  · exact (c4_amended_query_semantics [artNoSp] { query := some [] }).1 (Or.inr rfl)
  · exact ((c4_amended_query_semantics [artNoSp] { query := some ['x'] }).2
      ['x'] rfl (by decide) itemNoSp).mpr (by decide)

/-- A `Map.set` keeps the key order, appending an unseen key at the end. -/
theorem bumpTag_keys (m : List (Str × Nat)) (t : Str) :
    (bumpTag m t).map Prod.fst =
      if t ∈ m.map Prod.fst then m.map Prod.fst else m.map Prod.fst ++ [t] := by
  induction m with
  | nil => simp [bumpTag]
  | cons p r ih =>
    obtain ⟨t', c⟩ := p
    by_cases h : t' = t
    · subst h
      simp [bumpTag]
    · have hne : ¬ (t = t') := fun he => h he.symm
      by_cases hm : t ∈ r.map Prod.fst <;>
        simp [bumpTag, h, ih, hm, List.mem_cons, hne]

/-- A `Map.set` increments the bumped key's count. -/
theorem bumpTag_lookup_self (m : List (Str × Nat)) (t : Str) :
    lookupC (bumpTag m t) t = lookupC m t + 1 := by
  induction m with
  | nil => simp [bumpTag, lookupC]
  | cons p r ih =>
    obtain ⟨t', c⟩ := p
    by_cases h : t' = t <;> simp [bumpTag, lookupC, h, ih]

/-- A `Map.set` leaves other keys' counts unchanged. -/
theorem bumpTag_lookup_other (m : List (Str × Nat)) (t s : Str) (hst : s ≠ t) :
    lookupC (bumpTag m t) s = lookupC m s := by
  have hts : ¬ (t = s) := fun he => hst he.symm
  induction m with
  | nil => simp [bumpTag, lookupC, hts]
  | cons p r ih =>
    obtain ⟨t', c⟩ := p
    by_cases h : t' = t
    · subst h
      simp [bumpTag, lookupC, hts]
    · by_cases hs : t' = s <;> simp [bumpTag, lookupC, h, hs, hst, hts, ih]

/-- Folding the bump over a tag list adds each tag's occurrence count. -/
theorem foldl_bumpTag_lookup (ts : List Str) : ∀ (m : List (Str × Nat)) (t : Str),
    lookupC (ts.foldl bumpTag m) t = lookupC m t + ts.count t := by
  induction ts with
  | nil => simp
  | cons x ts ih =>
    intro m t
    simp only [List.foldl_cons]
    rw [ih]
    by_cases h : x = t
    · subst h
      rw [bumpTag_lookup_self, List.count_cons_self]
      omega
    · rw [bumpTag_lookup_other m x t (fun he => h he.symm),
        List.count_cons_of_ne (fun he => h he.symm)]

/-- The nested `forEach` fold is the fold over the flattened tag list. -/
theorem tagCountsMap_eq (articles : List Article) :
    tagCountsMap articles = (flatTags articles).foldl bumpTag [] := by
  suffices h : ∀ (arts : List Article) (m : List (Str × Nat)),
      arts.foldl (fun m a => a.metadata.tags.foldl bumpTag m) m
        = ((arts.map (fun a => a.metadata.tags)).flatten).foldl bumpTag m by
    exact h articles []
  intro arts
  induction arts with
  | nil => intro m; rfl
  | cons a r ih =>
    intro m
    simp only [List.foldl_cons, List.map_cons, List.flatten_cons, List.foldl_append]
    exact ih _

/-- The function `firstOccs` only depends on the membership of `seen`. -/
theorem firstOccs_congr (ts : List Str) : ∀ (s1 s2 : List Str),
    (∀ x, x ∈ s1 ↔ x ∈ s2) → firstOccs s1 ts = firstOccs s2 ts := by
  induction ts with
  | nil => intros; rfl
  | cons t ts ih =>
    intro s1 s2 h
    by_cases hm : t ∈ s1
    · rw [firstOccs, firstOccs, if_pos hm, if_pos ((h t).mp hm)]
      exact ih s1 s2 h
    · have hm2 : t ∉ s2 := fun hx => hm ((h t).mpr hx)
      rw [firstOccs, firstOccs, if_neg hm, if_neg hm2]
      exact congrArg _ (ih (t :: s1) (t :: s2) (fun x => by simp [List.mem_cons, h x]))

/-- Folding bumps appends the unseen keys in first-occurrence order. -/
theorem foldl_bumpTag_keys (ts : List Str) : ∀ (m : List (Str × Nat)),
    (ts.foldl bumpTag m).map Prod.fst
      = m.map Prod.fst ++ firstOccs (m.map Prod.fst) ts := by
  induction ts with
  | nil => intro m; simp [firstOccs]
  | cons t ts ih =>
    intro m
    simp only [List.foldl_cons]
    rw [ih (bumpTag m t), bumpTag_keys]
    by_cases hm : t ∈ m.map Prod.fst
    · rw [if_pos hm, firstOccs, if_pos hm]
    · rw [if_neg hm, firstOccs, if_neg hm,
        firstOccs_congr ts (m.map Prod.fst ++ [t]) (t :: m.map Prod.fst)
          (fun x => by simp [List.mem_append, List.mem_cons, or_comm])]
      simp

/-- The function `firstOccs` yields distinct keys outside `seen`. -/
theorem firstOccs_nodup (ts : List Str) : ∀ (seen : List Str),
    (firstOccs seen ts).Nodup ∧ ∀ x ∈ firstOccs seen ts, x ∉ seen := by
  induction ts with
  | nil => intro seen; exact ⟨List.nodup_nil, by simp [firstOccs]⟩
  | cons t ts ih =>
    intro seen
    by_cases hm : t ∈ seen
    · rw [firstOccs, if_pos hm]
      exact ih seen
    · obtain ⟨hnd, hns⟩ := ih (t :: seen)
      rw [firstOccs, if_neg hm]
      refine ⟨List.nodup_cons.mpr ⟨?_, hnd⟩, ?_⟩
      · intro hx
        exact hns t hx (List.mem_cons_self t seen)
      · intro x hx
        rcases List.mem_cons.mp hx with rfl | hx'
        · exact hm
        · intro hxs
          exact hns x hx' (List.mem_cons_of_mem _ hxs)

/-- In an association list with distinct keys, membership determines the
looked-up count. -/
theorem mem_lookupC : ∀ (m : List (Str × Nat)), (m.map Prod.fst).Nodup →
    ∀ t c, (t, c) ∈ m → lookupC m t = c := by
  intro m
  induction m with
  | nil => intro _ t c h; cases h
  | cons p r ih =>
    obtain ⟨t', c'⟩ := p
    intro hnd t c h
    rcases List.mem_cons.mp h with he | hm
    · cases he
      simp [lookupC]
    · have ht : t' ≠ t := by
        intro he
        subst he
        exact (List.nodup_cons.mp hnd).1
          (List.mem_map.mpr ⟨(t', c), hm, rfl⟩)
      rw [lookupC, if_neg ht]
      exact ih (List.nodup_cons.mp hnd).2 t c hm

/-- Counterexample to claim C5 as stated: an article whose tag list
carries `"a"` twice contributes 2 to that tag's count (the nested
`forEach` of lines 238-242 has no per-article deduplication), not 1. -/
theorem c5_counterexample :
    getAllTags [artDup] = [{ tag := ['a'], count := 2 }] ∧ (2 : Nat) ≠ 1 := by
  decide

/-- Claim C5 as amended: `getAllTags` counts every tag occurrence (an
article listing a tag twice contributes 2); its entries carry exactly the
occurrence counts over the whole index, its keys before sorting are the
tags in first-occurrence order, the output is ordered by count
descending, and ties keep that first-occurrence order. -/
theorem c5_amended_tag_aggregation (idx : List Article) :
    (∀ t c, ({ tag := t, count := c } : TagCount) ∈ getAllTags idx →
        c = (flatTags idx).count t) ∧
    ((tagCountsMap idx).map Prod.fst = firstOccs [] (flatTags idx)) ∧
    (getAllTags idx).Pairwise (fun a b => b.count ≤ a.count) ∧
    (∀ n, (getAllTags idx).filter (fun x => decide (x.count = n))
        = ((tagCountsMap idx).map
            (fun p => ({ tag := p.1, count := p.2 } : TagCount))).filter
            (fun x => decide (x.count = n))) := by
  have hkeys : (tagCountsMap idx).map Prod.fst = firstOccs [] (flatTags idx) := by
    rw [tagCountsMap_eq]
    simpa using foldl_bumpTag_keys (flatTags idx) []
  have hnd : ((tagCountsMap idx).map Prod.fst).Nodup := by
    rw [hkeys]
    exact (firstOccs_nodup (flatTags idx) []).1
  refine ⟨?_, hkeys, ?_, ?_⟩
  · intro t c hmem
    have hperm := List.perm_insertionSort countDescR
      ((tagCountsMap idx).map (fun p => ({ tag := p.1, count := p.2 } : TagCount)))
    have hmem2 : ({ tag := t, count := c } : TagCount) ∈
        (tagCountsMap idx).map (fun p => ({ tag := p.1, count := p.2 } : TagCount)) :=
      hperm.mem_iff.mp hmem
    obtain ⟨p, hp, he⟩ := List.mem_map.mp hmem2
    have hp1 : p.1 = t := congrArg TagCount.tag he
    have hp2 : p.2 = c := congrArg TagCount.count he
    have hptc : (t, c) ∈ tagCountsMap idx := by
      have : p = (t, c) := Prod.ext hp1 hp2
      exact this ▸ hp
    have hl := mem_lookupC (tagCountsMap idx) hnd t c hptc
    rw [tagCountsMap_eq, foldl_bumpTag_lookup] at hl
    simpa [lookupC] using hl.symm
  · exact List.sorted_insertionSort countDescR _
  · intro n
    exact insertionSort_filter_key (fun x : TagCount => x.count) countDescR
      (fun _ _ => Iff.rfl) n _

/-- Witness for the amended C5 at the duplicate-tag article: the entry
for `"a"` is in the output and its count is the occurrence count 2. -/
theorem c5_amended_tag_aggregation_witness :
    ({ tag := ['a'], count := 2 } : TagCount) ∈ getAllTags [artDup] ∧
    (2 : Nat) = (flatTags [artDup]).count ['a'] :=
  ⟨by decide, (c5_amended_tag_aggregation [artDup]).1 ['a'] 2 (by decide)⟩

/-- Claim C6: the excerpt never exceeds the requested maximum length plus
the length of the ellipsis marker. -/
theorem c6_excerpt_length_bound (content : Str) (L : Nat) :
    (extractExcerpt content L).length ≤ L + ellipsis.length := by
  show (extractExcerpt content L).length ≤ L + 3
  simp only [extractExcerpt]
  split
  · omega
  · split
    · rw [List.length_append, List.length_take, List.length_take]
      show _ ≤ L + ellipsis.length
      simp only [ellipsis, List.length_cons]
      omega
    · rw [List.length_append, List.length_take]
      show _ ≤ L + ellipsis.length
      simp only [ellipsis, List.length_cons]
      omega

/-- A `none` result of `lastIdxOf` means the character occurs nowhere. -/
theorem lastIdxOf_none_spec (c : Char) : ∀ (l : Str), lastIdxOf c l = none →
    ∀ i, i < l.length → l[i]? ≠ some c := by
  intro l
  induction l with
  | nil =>
    intro _ i hi
    simp at hi
  | cons x r ih =>
    intro h i hi
    rw [lastIdxOf] at h
    cases hr : lastIdxOf c r with
    | some k =>
      rw [hr] at h
      cases h
    | none =>
      rw [hr] at h
      by_cases hx : x = c
      · rw [if_pos hx] at h
        cases h
      · cases i with
        | zero =>
          simpa using fun he => hx he
        | succ j =>
          have := ih hr j (by simpa using hi)
          simpa using this

/-- A `some k` result of `lastIdxOf` is a position of the character with
no later occurrence. -/
theorem lastIdxOf_some_spec (c : Char) : ∀ (l : Str) (k : Nat), lastIdxOf c l = some k →
    k < l.length ∧ l[k]? = some c ∧
      ∀ j, k < j → j < l.length → l[j]? ≠ some c := by
  intro l
  induction l with
  | nil =>
    intro k h
    cases h
  | cons x r ih =>
    intro k h
    rw [lastIdxOf] at h
    cases hr : lastIdxOf c r with
    | some m =>
      rw [hr] at h
      have hk : k = m + 1 := by
        injection h with h'
        omega
      obtain ⟨hm1, hm2, hm3⟩ := ih m hr
      subst hk
      refine ⟨by simpa using hm1, by simpa using hm2, ?_⟩
      intro j hj1 hj2
      obtain ⟨j', rfl⟩ : ∃ j', j = j' + 1 := ⟨j - 1, by omega⟩
      have := hm3 j' (by omega) (by simpa using hj2)
      simpa using this
    | none =>
      rw [hr] at h
      by_cases hx : x = c
      · rw [if_pos hx] at h
        have hk : k = 0 := by
          injection h with h'
          omega
        subst hk
        refine ⟨by simp, by simp [hx], ?_⟩
        intro j hj1 hj2
        obtain ⟨j', rfl⟩ : ∃ j', j = j' + 1 := ⟨j - 1, by omega⟩
        have := lastIdxOf_none_spec c r hr j' (by simpa using hj2)
        simpa using this
      · rw [if_neg hx] at h
        cases h

/-- Reduction of `extractExcerpt` on over-long plain text when the
truncation contains a space. -/
theorem extractExcerpt_long_some (content : Str) (L k : Nat)
    (h : ¬ ((plainTextOf content).length ≤ L))
    (hl : lastIdxOf ' ' ((plainTextOf content).take L) = some k) :
    extractExcerpt content L =
      if 4 * (L : Int) < 5 * (k : Int) then
        ((plainTextOf content).take L).take k ++ ellipsis
      else ((plainTextOf content).take L) ++ ellipsis := by
  simp only [extractExcerpt, h, if_false, hl]
  by_cases hc : 4 * (L : Int) < 5 * (k : Int)
  · rw [if_pos hc, if_pos hc]
    simp
  · rw [if_neg hc, if_neg hc]

/-- Reduction of `extractExcerpt` on over-long plain text when the
truncation contains no space. -/
theorem extractExcerpt_long_none (content : Str) (L : Nat)
    (h : ¬ ((plainTextOf content).length ≤ L))
    (hl : lastIdxOf ' ' ((plainTextOf content).take L) = none) :
    extractExcerpt content L = ((plainTextOf content).take L) ++ ellipsis := by
  simp only [extractExcerpt, h, if_false, hl]
  rw [if_neg (by omega : ¬ (4 * (L : Int) < 5 * (-1 : Int)))]

/-- Counterexample to claim C7 as stated: at `maxLength = 10` the body's
truncated text has its last whitespace boundary at index 8, which is
exactly at 80% of the maximum (`5·8 = 4·10`); the claim demands backing
up to it, but line 140's strict `>` keeps the hard truncation. -/
theorem c7_counterexample :
    lastIdxOf ' ' ((plainTextOf body7).take 10) = some 8 ∧
    4 * 10 ≤ 5 * 8 ∧
    extractExcerpt body7 10 = ((plainTextOf body7).take 10) ++ ellipsis ∧
    ((plainTextOf body7).take 10) ++ ellipsis ≠
      ((plainTextOf body7).take 8) ++ ellipsis := by
  decide

/-- Claim C7 as amended: when the stripped plain text exceeds `maxLength`,
the code truncates to `maxLength` and backs up to the last whitespace
boundary if and only if that boundary lies strictly after 80% of
`maxLength` (`5·i > 4·maxLength`); otherwise — including when the
boundary sits exactly at 80% — it keeps the hard truncation, appending
the ellipsis marker in either case. -/
theorem c7_amended_backup_boundary (content : Str) (L : Nat)
    (hlong : L < (plainTextOf content).length) :
    (∀ i : Nat, ((plainTextOf content).take L)[i]? = some ' ' →
        (∀ j : Nat, j < ((plainTextOf content).take L).length → i < j →
          ((plainTextOf content).take L)[j]? ≠ some ' ') →
        extractExcerpt content L =
          (if 4 * L < 5 * i then ((plainTextOf content).take L).take i
           else (plainTextOf content).take L) ++ ellipsis) ∧
    ((∀ i : Nat, i < ((plainTextOf content).take L).length →
        ((plainTextOf content).take L)[i]? ≠ some ' ') →
      extractExcerpt content L = (plainTextOf content).take L ++ ellipsis) := by
  have hnotle : ¬ ((plainTextOf content).length ≤ L) := by omega
  constructor
  · intro i hi hmax
    have hilen : i < ((plainTextOf content).take L).length := by
      by_contra h'
      rw [List.getElem?_eq_none (by omega)] at hi
      cases hi
    cases hl : lastIdxOf ' ' ((plainTextOf content).take L) with
    | none =>
      exact absurd hi (lastIdxOf_none_spec ' ' _ hl i hilen)
    | some k =>
      obtain ⟨hk1, hk2, hk3⟩ := lastIdxOf_some_spec ' ' _ k hl
      have hik : i = k := by
        by_contra hne
        rcases Nat.lt_or_ge i k with hlt | hge
        · exact hmax k hk1 hlt hk2
        · exact hk3 i (by omega) hilen hi
      subst hik
      rw [extractExcerpt_long_some content L i hnotle hl]
      rw [apply_ite (· ++ ellipsis)]
      exact if_congr (by omega) rfl rfl
  · intro hno
    cases hl : lastIdxOf ' ' ((plainTextOf content).take L) with
    | none =>
      rw [extractExcerpt_long_none content L hnotle hl]
    | some k =>
      obtain ⟨hk1, hk2, _⟩ := lastIdxOf_some_spec ' ' _ k hl
      exact absurd hk2 (hno k hk1)

/-- Witness for the amended C7 at `body7` and limit 10: the last space of
the truncation sits at index 8, `5·8 > 4·10` fails, so the hard
truncation is kept. -/
theorem c7_amended_backup_boundary_witness :
    10 < (plainTextOf body7).length ∧
    extractExcerpt body7 10 = ((plainTextOf body7).take 10) ++ ellipsis := by
  have h := (c7_amended_backup_boundary body7 10 (by decide)).1 8 (by decide) (by decide)
  refine ⟨by decide, ?_⟩
  rw [h, if_neg (by omega : ¬ (4 * 10 < 5 * 8))]

/-- Counterexample to claim C8 as stated: two documents declaring the
same slug `"s"` both survive the load — `loadArticles` (lines 32-48) has
no collision detection and nothing overwrites anything — so the index
carries a duplicated slug. -/
theorem c8_counterexample :
    (loadArticles [some docS1, some docS2]).map (fun a => a.metadata.slug)
      = [['s'], ['s']] ∧
    ¬ ((loadArticles [some docS1, some docS2]).map (fun a => a.metadata.slug)).Nodup := by
  decide

/-- Claim C8 as amended: slug uniqueness is not enforced.  The index is a
permutation (the date-descending reordering) of the per-document results,
so colliding documents are all kept, none replaces another; the index's
slugs are pairwise distinct only when the loaded documents' slugs already
were. -/
theorem c8_amended_no_slug_dedup (docs : List (Option RawDoc)) :
    List.Perm (loadArticles docs) (parsedArticles docs) ∧
    (((parsedArticles docs).map (fun a => a.metadata.slug)).Nodup →
      ((loadArticles docs).map (fun a => a.metadata.slug)).Nodup) :=
  ⟨loadArticles_perm docs, fun h =>
    (((loadArticles_perm docs).map (fun a => a.metadata.slug)).nodup_iff).mpr h⟩

/-- Witness for the amended C8 on two documents with distinct slugs. -/
theorem c8_amended_no_slug_dedup_witness :
    ((parsedArticles [some docS1, some docS3]).map (fun a => a.metadata.slug)).Nodup ∧
    ((loadArticles [some docS1, some docS3]).map (fun a => a.metadata.slug)).Nodup :=
  ⟨by decide, (c8_amended_no_slug_dedup [some docS1, some docS3]).2 (by decide)⟩

/-- In a date-descending list, `find?` returns a match of maximal date:
every other match lies at or below it. -/
theorem find?_max_of_sorted (p : Article → Bool) :
    ∀ (l : List Article), l.Pairwise dateDescR →
      ∀ a, l.find? p = some a → ∀ b ∈ l, p b = true →
        b.metadata.date ≤ a.metadata.date := by
  intro l
  induction l with
  | nil =>
    intro _ a h
    cases h
  | cons x t ih =>
    intro hp a hf b hb hpb
    rcases List.pairwise_cons.mp hp with ⟨hx, ht⟩
    by_cases hpx : p x = true
    · rw [List.find?_cons_of_pos _ hpx] at hf
      injection hf with hf'
      subst hf'
      rcases List.mem_cons.mp hb with rfl | hbt
      · exact le_refl _
      · exact hx b hbt
    · rw [List.find?_cons_of_neg _ (by simpa using hpx)] at hf
      rcases List.mem_cons.mp hb with rfl | hbt
      · exact absurd hpb hpx
      · exact ih ht a hf b hbt hpb

/-- Claim C10: `getArticleBySlug` over a loaded index returns the null
sentinel exactly when no article carries the slug; a returned article
carries the slug, belongs to the index, and — the index being
date-descending — is of maximal date among the articles sharing that
slug; and lookups remove nothing: index membership stays exactly the
membership of the loaded document results. -/
theorem c10_get_by_slug_first (docs : List (Option RawDoc)) (slug : Str) :
    (getArticleBySlug (loadArticles docs) slug = none ↔
      ∀ a ∈ loadArticles docs, a.metadata.slug ≠ slug) ∧
    (∀ art, getArticleBySlug (loadArticles docs) slug = some art →
      art.metadata.slug = slug ∧ art ∈ loadArticles docs ∧
      ∀ b ∈ loadArticles docs, b.metadata.slug = slug →
        b.metadata.date ≤ art.metadata.date) ∧
    (∀ a, a ∈ loadArticles docs ↔ a ∈ parsedArticles docs) := by
  refine ⟨?_, ?_, fun a => (loadArticles_perm docs).mem_iff⟩
  · simp only [getArticleBySlug, List.find?_eq_none, decide_eq_true_eq]
  · intro art hf
    have hps := List.find?_some hf
    have hmem := List.mem_of_find?_eq_some hf
    refine ⟨by simpa using hps, hmem, ?_⟩
    intro b hb hbs
    exact find?_max_of_sorted _ (loadArticles docs) (loadArticles_sorted docs)
      art hf b hb (by simp [hbs])

/-- Witness for C10: on two loaded documents the slug `"s"` resolves to
the dated-1 article. -/
theorem c10_get_by_slug_first_witness :
    getArticleBySlug (loadArticles [some docS1, some docS3]) ['s'] = some artS1 ∧
    artS1.metadata.slug = ['s'] ∧
    artS1 ∈ loadArticles [some docS1, some docS3] := by
  have h := (c10_get_by_slug_first [some docS1, some docS3] ['s']).2.1 artS1 (by decide)
  exact ⟨by decide, h.1, h.2.1⟩

/-- Splitting a schedule splits the run. -/
theorem runSchedule_append (docs : List (Option RawDoc)) (l1 l2 : List Bool) :
    ∀ st, runSchedule docs (l1 ++ l2) st = runSchedule docs l2 (runSchedule docs l1 st) := by
  induction l1 with
  | nil => intro st; rfl
  | cons b r ih =>
    intro st
    obtain ⟨s, pc1, pc2⟩ := st
    cases b <;> simp [runSchedule, ih]

/-- Caller one, at `n` fetches to go, finishes its load in `n + 2` steps,
performing `n` fetches and installing the index. -/
theorem run_fetch_steps (docs : List (Option RawDoc)) :
    ∀ (n : Nat) (s : LoadSysState) (pc2 : CallerPC),
      runSchedule docs (List.replicate (n + 2) false) (s, .fetching n, pc2)
        = ({ articles := loadArticles docs, fetchCount := s.fetchCount + n },
            .done, pc2) := by
  intro n
  induction n with
  | zero =>
    intro s pc2
    rfl
  | succ n ih =>
    intro s pc2
    show runSchedule docs (List.replicate (n + 2) false)
      ({ s with fetchCount := s.fetchCount + 1 }, .fetching n, pc2) = _
    rw [ih]
    have h : s.fetchCount + 1 + n = s.fetchCount + (n + 1) := by omega
    rw [h]

/-- The same for caller two. -/
theorem run_fetch_steps_second (docs : List (Option RawDoc)) :
    ∀ (n : Nat) (s : LoadSysState) (pc1 : CallerPC),
      runSchedule docs (List.replicate (n + 2) true) (s, pc1, .fetching n)
        = ({ articles := loadArticles docs, fetchCount := s.fetchCount + n },
            pc1, .done) := by
  intro n
  induction n with
  | zero =>
    intro s pc1
    rfl
  | succ n ih =>
    intro s pc1
    show runSchedule docs (List.replicate (n + 2) true)
      ({ s with fetchCount := s.fetchCount + 1 }, pc1, .fetching n) = _
    rw [ih]
    have h : s.fetchCount + 1 + n = s.fetchCount + (n + 1) := by omega
    rw [h]

/-- Counterexample to claim C9 as stated: with one document and two
concurrent callers that both observe the empty index before either load
completes, the system performs 2 retrievals of that document, not
exactly 1. -/
theorem c9_counterexample :
    (runSchedule [some docS1] (concSched 1)
        (initLoadState, CallerPC.start, CallerPC.start)).1.fetchCount = 2 ∧
    (2 : Nat) ≠ 1 := by
  decide

/-- Claim C9 as amended: `getArticles` has no single-flight guard
(lines 155-160 only check `this.articles.length === 0` and call
`loadArticles` directly), so each concurrent caller that observes the
empty index triggers its own retrieval-and-parse pass: two such callers
perform two retrievals per document, while a caller that checks only
after a successful non-empty load performs none. -/
theorem c9_amended_no_single_flight (docs : List (Option RawDoc))
    (hne : loadArticles docs ≠ []) :
    (runSchedule docs (concSched docs.length)
        (initLoadState, CallerPC.start, CallerPC.start)).1.fetchCount
      = 2 * docs.length ∧
    (runSchedule docs (seqSched docs.length)
        (initLoadState, CallerPC.start, CallerPC.start)).1.fetchCount
      = docs.length := by
  have hlen : ¬ ((loadArticles docs).length = 0) := fun h =>
    hne (List.eq_nil_of_length_eq_zero h)
  constructor
  · have s1 : runSchedule docs (concSched docs.length)
        (initLoadState, CallerPC.start, CallerPC.start)
        = runSchedule docs
            (List.replicate (docs.length + 2) false ++
              List.replicate (docs.length + 2) true)
            (initLoadState, .fetching docs.length, .fetching docs.length) := rfl
    rw [s1, runSchedule_append, run_fetch_steps, run_fetch_steps_second]
    show (0 + docs.length) + docs.length = 2 * docs.length
    omega
  · have s1 : runSchedule docs (seqSched docs.length)
        (initLoadState, CallerPC.start, CallerPC.start)
        = runSchedule docs (List.replicate (docs.length + 2) false ++ [true])
            (initLoadState, .fetching docs.length, .start) := rfl
    rw [s1, runSchedule_append, run_fetch_steps]
    simp [runSchedule, callerStep, hlen, initLoadState]

/-- Witness for the amended C9 with the single valid document `docS1`. -/
theorem c9_amended_no_single_flight_witness :
    loadArticles [some docS1] ≠ [] ∧
    (runSchedule [some docS1] (concSched 1)
        (initLoadState, CallerPC.start, CallerPC.start)).1.fetchCount = 2 * 1 ∧
    (runSchedule [some docS1] (seqSched 1)
        (initLoadState, CallerPC.start, CallerPC.start)).1.fetchCount = 1 := by
  have h := c9_amended_no_single_flight [some docS1] (by decide)
  exact ⟨by decide, h.1, h.2⟩

end Portfolio
